import Mathlib

/-!
Verification of the numeric core of `rust-common-library`:
`BigInteger` (a wrapper around the 256-bit unsigned `Uint256`) and
`BigDecimal` (a wrapper around the fixed-point `Decimal256`, whose value is
`atomics / 10^18` for a `Uint256` numerator `atomics`).

Shallow embedding conventions:
- A `Uint256` value is a `Nat` that is `< 2^256`; a `Decimal256` value is
  represented by its atomics, a `Nat` that is `< 2^256`.
- The arithmetic operators of `cosmwasm_std` (`+`, `-`, `*`, `/` on
  `Uint256`/`Decimal256`, `pow` on 128-bit integers, `from_ratio`, ...)
  detect overflow/underflow/division-by-zero and abort (panic) instead of
  wrapping; an aborting computation is modelled as `Except.error` with the
  corresponding arithmetic error, a completing one as `Except.ok`.
- `Decimal256` multiplication, division and `from_ratio` use a 512-bit
  intermediate in the source (`full_mul` / `checked_multiply_ratio`), which
  never overflows for 256-bit inputs, so they are embedded as the exact
  `Nat` expression `floor`ed, with only the final result checked against
  `2^256`.
-/

namespace RustCommon

/-- 2^256, one more than `Uint256::MAX`. -/
def U256MOD : Nat := 2 ^ 256

/-- 2^128, one more than `u128::MAX` / `Uint128::MAX`. -/
def U128MOD : Nat := 2 ^ 128

/-- `Decimal256::DECIMAL_FRACTIONAL = 10^18`, the fixed denominator of the
fixed-point decimal type. -/
def DF : Nat := 10 ^ 18

/-- Arithmetic failure modes of the checked operations. -/
inductive ArithError
  | Overflow
  | Underflow
  | DivideByZero
  deriving DecidableEq

/-- Bind on a successful `Except` computation steps into the continuation. -/
@[simp]
theorem except_ok_bind {ε α β : Type} (a : α) (f : α → Except ε β) :
    (Except.ok a : Except ε α) >>= f = f a := rfl

/-- Bind on a failed `Except` computation propagates the failure. -/
@[simp]
theorem except_error_bind {ε α β : Type} (e : ε) (f : α → Except ε β) :
    (Except.error e : Except ε α) >>= f = Except.error e := rfl

/-- `Uint256` addition: `self.0 + rhs.0`, aborts on overflow. -/
def Uint256.add (a b : Nat) : Except ArithError Nat :=
  if a + b < U256MOD then .ok (a + b) else .error .Overflow

/-- `Uint256` subtraction: `self.0 - rhs.0`, aborts on underflow. -/
def Uint256.sub (a b : Nat) : Except ArithError Nat :=
  if b ≤ a then .ok (a - b) else .error .Underflow

/-- `Uint256` multiplication: `self.0 * rhs.0`, aborts on overflow. -/
def Uint256.mul (a b : Nat) : Except ArithError Nat :=
  if a * b < U256MOD then .ok (a * b) else .error .Overflow

/-- `Uint256` division: `self.0 / rhs.0`, floor division, aborts on a zero
divisor. -/
def Uint256.div (a b : Nat) : Except ArithError Nat :=
  if b = 0 then .error .DivideByZero else .ok (a / b)

/-- `Uint256::saturating_sub`: clamps to zero instead of failing. -/
def Uint256.saturating_sub (a b : Nat) : Nat := a - b

/-- `Decimal256` addition adds the atomics (`Uint256` addition). -/
def Decimal256.add (a b : Nat) : Except ArithError Nat := Uint256.add a b

/-- `Decimal256` subtraction subtracts the atomics (`Uint256` subtraction). -/
def Decimal256.sub (a b : Nat) : Except ArithError Nat := Uint256.sub a b

/-- `Decimal256::checked_from_ratio` / `from_ratio`: atomics
`floor(num * 10^18 / denom)` computed with a 512-bit intermediate; aborts on
a zero denominator or when the result does not fit in 256 bits. -/
def Decimal256.from_ratio (num denom : Nat) : Except ArithError Nat :=
  if denom = 0 then .error .DivideByZero
  else if num * DF / denom < U256MOD then .ok (num * DF / denom)
  else .error .Overflow

/-- `Decimal256` multiplication: atomics `floor(a * b / 10^18)` computed with
a 512-bit intermediate (`full_mul`); aborts when the result does not fit. -/
def Decimal256.mul (a b : Nat) : Except ArithError Nat :=
  if a * b / DF < U256MOD then .ok (a * b / DF) else .error .Overflow

/-- `Decimal256` division is `checked_from_ratio` of the numerators. -/
def Decimal256.div (a b : Nat) : Except ArithError Nat :=
  Decimal256.from_ratio a b

/-- `Decimal256::to_uint_floor`: the integer part, `atomics / 10^18`. -/
def Decimal256.to_uint_floor (a : Nat) : Nat := a / DF

/-- Checked 128-bit multiplication (`u128` / `Uint128` multiply with overflow
detection). -/
def u128Mul (a b : Nat) : Except ArithError Nat :=
  if a * b < U128MOD then .ok (a * b) else .error .Overflow

/-- `10u128.pow(n)` (also `Uint128::from(10u64).pow(n)`): repeated checked
128-bit multiplication, aborting as soon as a product reaches `2^128`. -/
def u128CheckedPow10 : Nat → Except ArithError Nat
  | 0 => .ok 1
  | n + 1 => do
    let r ← u128CheckedPow10 n
    u128Mul r 10

/-- `BigInteger::zero()`. -/
def BigInteger.zero : Nat := 0

/-- `impl Add for BigInteger`: delegates to `Uint256` addition. -/
def BigInteger.add (a b : Nat) : Except ArithError Nat := Uint256.add a b

/-- `impl Sub for BigInteger`: delegates to `Uint256` subtraction. -/
def BigInteger.sub (a b : Nat) : Except ArithError Nat := Uint256.sub a b

/-- `impl Mul for BigInteger`: delegates to `Uint256` multiplication. -/
def BigInteger.mul (a b : Nat) : Except ArithError Nat := Uint256.mul a b

/-- `impl Div for BigInteger`: delegates to `Uint256` division. -/
def BigInteger.div (a b : Nat) : Except ArithError Nat := Uint256.div a b

/-- `BigInteger::saturating_sub`: delegates to `Uint256::saturating_sub`. -/
def BigInteger.saturating_sub (a b : Nat) : Nat := Uint256.saturating_sub a b

/-- `impl Sum for BigInteger`: `iter.fold(Self::zero(), Add::add)`; an
aborting addition aborts the whole fold. -/
def BigInteger.sum (l : List Nat) : Except ArithError Nat :=
  l.foldlM BigInteger.add BigInteger.zero

/-- `BigDecimal::zero()`: atomics 0. -/
def BigDecimal.zero : Nat := 0

/-- `BigDecimal::one()`: atomics `10^18`. -/
def BigDecimal.one : Nat := DF

/-- `impl Add for BigDecimal`: delegates to `Decimal256` addition. -/
def BigDecimal.add (a b : Nat) : Except ArithError Nat := Decimal256.add a b

/-- `impl Sum for BigDecimal`: `iter.fold(Self::zero(), Add::add)`. -/
def BigDecimal.sum (l : List Nat) : Except ArithError Nat :=
  l.foldlM BigDecimal.add BigDecimal.zero

/-- `BigDecimal::from(bigint, decimals)`:
`Decimal256::from_ratio(bigint.0, Uint128::from(10u64).pow(decimals))`.
(Source name `from`; `from` is a Lean keyword.) -/
def BigDecimal.fromInt (a decimals : Nat) : Except ArithError Nat := do
  let p ← u128CheckedPow10 decimals
  Decimal256.from_ratio a p

/-- `BigDecimal::scale_up(decimals)`:
`(self.0 * Decimal256::from_ratio(10u128.pow(decimals), 1u128)).to_uint_floor()`. -/
def BigDecimal.scale_up (v decimals : Nat) : Except ArithError Nat := do
  let p ← u128CheckedPow10 decimals
  let g ← Decimal256.from_ratio p 1
  let w ← Decimal256.mul v g
  pure (Decimal256.to_uint_floor w)

/-- `BigDecimal::move_point_right(decimals)`:
`*self * BigDecimal::from_ratio(10u128.pow(decimals), 1u128)`. -/
def BigDecimal.move_point_right (v decimals : Nat) : Except ArithError Nat := do
  let p ← u128CheckedPow10 decimals
  let g ← Decimal256.from_ratio p 1
  Decimal256.mul v g

/-- `BigDecimal::move_point_left(decimals)`:
`*self / BigDecimal::from_ratio(10u128.pow(decimals), 1u128)`. -/
def BigDecimal.move_point_left (v decimals : Nat) : Except ArithError Nat := do
  let p ← u128CheckedPow10 decimals
  let g ← Decimal256.from_ratio p 1
  Decimal256.div v g

/-- `BigDecimal::is_ratio()`: `*self >= zero() && *self <= one()`
(ordering on `Decimal256` compares the atomics). -/
def BigDecimal.is_ratio (v : Nat) : Bool :=
  decide (BigDecimal.zero ≤ v) && decide (v ≤ BigDecimal.one)

/-! ## Checked arithmetic (C1) -/

/-- C1: for `BigInteger` values (naturals below `2^256`), the checked
operations fail instead of wrapping: `add`/`mul` fail with `Overflow` exactly
when the true result exceeds `2^256 - 1`, `sub` fails with `Underflow` exactly
when the right-hand side exceeds the left, `div` fails with `DivideByZero`
exactly when the divisor is zero; in every non-failing case the exact
mathematical result is returned. -/
theorem biginteger_checked_ops (a b : Nat) (ha : a < U256MOD) (hb : b < U256MOD) :
    (U256MOD ≤ a + b → BigInteger.add a b = .error .Overflow) ∧
    (a + b < U256MOD → BigInteger.add a b = .ok (a + b)) ∧
    (U256MOD ≤ a * b → BigInteger.mul a b = .error .Overflow) ∧
    (a * b < U256MOD → BigInteger.mul a b = .ok (a * b)) ∧
    (a < b → BigInteger.sub a b = .error .Underflow) ∧
    (b ≤ a → BigInteger.sub a b = .ok (a - b)) ∧
    (b = 0 → BigInteger.div a b = .error .DivideByZero) ∧
    (b ≠ 0 → BigInteger.div a b = .ok (a / b)) := by
  refine ⟨?_, ?_, ?_, ?_, ?_, ?_, ?_, ?_⟩ <;> intro h <;>
    simp [BigInteger.add, BigInteger.mul, BigInteger.sub, BigInteger.div,
      Uint256.add, Uint256.mul, Uint256.sub, Uint256.div, h]

/-- Witness for C1 at concrete inputs: adding 2 to `2^256 - 1` overflows,
and dividing it by 2 succeeds with the floored quotient. -/
theorem biginteger_checked_ops_witness :
    BigInteger.add (U256MOD - 1) 2 = .error .Overflow ∧
    BigInteger.div (U256MOD - 1) 2 = .ok ((U256MOD - 1) / 2) :=
  ⟨(biginteger_checked_ops (U256MOD - 1) 2 (by decide) (by decide)).1 (by decide),
   (biginteger_checked_ops (U256MOD - 1) 2 (by decide) (by decide)).2.2.2.2.2.2.2
     (by decide)⟩

/-! ## Sum as a checked left fold (C2) -/

/-- The checked left fold of `Uint256.add` from an in-range accumulator:
it returns the exact total when that total is in range, and fails with
`Overflow` as soon as the running total leaves the range. -/
theorem foldlM_add_spec (l : List Nat) : ∀ acc : Nat, acc < U256MOD →
    (acc + l.sum < U256MOD → l.foldlM Uint256.add acc = .ok (acc + l.sum)) ∧
    (U256MOD ≤ acc + l.sum → l.foldlM Uint256.add acc = .error .Overflow) := by
  induction l with
  | nil =>
    intro acc hacc
    refine ⟨fun _ => ?_, fun h => ?_⟩
    · simp only [List.foldlM_nil, List.sum_nil, Nat.add_zero]
      rfl
    · simp at h
      omega
  | cons x tl ih =>
    intro acc hacc
    by_cases hx : acc + x < U256MOD
    · have h2 := ih (acc + x) hx
      refine ⟨fun h => ?_, fun h => ?_⟩
      · have := h2.1 (by simp at h ⊢; omega)
        simp only [List.foldlM_cons, Uint256.add, if_pos hx]
        simpa [Nat.add_assoc] using this
      · have := h2.2 (by simp at h ⊢; omega)
        simp only [List.foldlM_cons, Uint256.add, if_pos hx]
        simpa using this
    · refine ⟨fun h => ?_, fun h => ?_⟩
      · exfalso
        have : x ≤ x + tl.sum := Nat.le_add_right _ _
        simp at h
        omega
      · simp only [List.foldlM_cons, Uint256.add, if_neg hx]
        rfl

/-- C2: `BigInteger` and `BigDecimal` `sum` are the left fold of the checked
`add` from `zero()`; they return the exact total when it is representable and
fail with `Overflow` (never wrap) when the running total would exceed the
maximum. -/
theorem sum_is_checked_fold (l : List Nat) :
    BigInteger.sum l = l.foldlM BigInteger.add BigInteger.zero ∧
    BigDecimal.sum l = l.foldlM BigDecimal.add BigDecimal.zero ∧
    (l.sum < U256MOD → BigInteger.sum l = .ok l.sum) ∧
    (U256MOD ≤ l.sum → BigInteger.sum l = .error .Overflow) ∧
    (l.sum < U256MOD → BigDecimal.sum l = .ok l.sum) ∧
    (U256MOD ≤ l.sum → BigDecimal.sum l = .error .Overflow) := by
  have h := foldlM_add_spec l 0 (by decide)
  have hbi : BigInteger.add = Uint256.add := rfl
  have hbd : BigDecimal.add = Uint256.add := rfl
  refine ⟨rfl, rfl, fun hlt => ?_, fun hge => ?_, fun hlt => ?_, fun hge => ?_⟩ <;>
    simp only [BigInteger.sum, BigDecimal.sum, BigInteger.zero, BigDecimal.zero,
      hbi, hbd]
  · simpa using h.1 (by simpa using hlt)
  · simpa using h.2 (by simpa using hge)
  · simpa using h.1 (by simpa using hlt)
  · simpa using h.2 (by simpa using hge)

/-- Witness for C2: summing `[1, 2, 3]` gives 6, and summing two halves of
the range plus 2 overflows. -/
theorem sum_is_checked_fold_witness :
    BigInteger.sum [1, 2, 3] = .ok 6 ∧
    BigDecimal.sum [U256MOD - 1, 1] = .error .Overflow :=
  ⟨by simpa using (sum_is_checked_fold [1, 2, 3]).2.2.1 (by decide),
   by simpa using (sum_is_checked_fold [U256MOD - 1, 1]).2.2.2.2.2 (by decide)⟩

/-! ## Saturating versus checked subtraction (C4) -/

/-- C4: when `b ≤ a`, `saturating_sub` agrees with the value of the checked
subtraction; when `a < b`, `saturating_sub` clamps to `zero()` while the
checked subtraction fails with `Underflow`. -/
theorem saturating_sub_vs_sub (a b : Nat) :
    (b ≤ a → BigInteger.sub a b = .ok (BigInteger.saturating_sub a b)) ∧
    (a < b → BigInteger.saturating_sub a b = BigInteger.zero ∧
      BigInteger.sub a b = .error .Underflow) := by
  refine ⟨fun h => ?_, fun h => ⟨?_, ?_⟩⟩ <;>
    simp [BigInteger.sub, BigInteger.saturating_sub, Uint256.sub,
      Uint256.saturating_sub, BigInteger.zero] <;> omega

/-- Witness for C4 at `(5, 3)` and `(3, 5)`. -/
theorem saturating_sub_vs_sub_witness :
    BigInteger.sub 5 3 = .ok (BigInteger.saturating_sub 5 3) ∧
    BigInteger.saturating_sub 3 5 = BigInteger.zero ∧
    BigInteger.sub 3 5 = .error .Underflow :=
  ⟨(saturating_sub_vs_sub 5 3).1 (by decide),
   (saturating_sub_vs_sub 3 5).2 (by decide)⟩

/-! ## `is_ratio` characterisation (C9) -/

/-- C9: `is_ratio` is true exactly on the closed interval
`[zero(), one()]`, and in particular false for every value strictly greater
than `one()`. -/
theorem is_ratio_iff_le_one (v : Nat) :
    (BigDecimal.is_ratio v = true ↔ BigDecimal.zero ≤ v ∧ v ≤ BigDecimal.one) ∧
    (BigDecimal.one < v → BigDecimal.is_ratio v = false) := by
  constructor
  · simp [BigDecimal.is_ratio]
  · intro h
    simp [BigDecimal.is_ratio]
    omega

/-- Witness for C9: `one() + 1` is not a ratio. -/
theorem is_ratio_iff_le_one_witness :
    BigDecimal.is_ratio (BigDecimal.one + 1) = false :=
  (is_ratio_iff_le_one (BigDecimal.one + 1)).2 (by decide)

/-! ## The power-of-ten factor (C10) and the scaling round-trips (C7, C8) -/

/-- The checked 128-bit power of ten returns `10^n` exactly when it fits in
128 bits and fails with `Overflow` otherwise. -/
theorem u128CheckedPow10_spec (n : Nat) :
    (10 ^ n < U128MOD → u128CheckedPow10 n = .ok (10 ^ n)) ∧
    (U128MOD ≤ 10 ^ n → u128CheckedPow10 n = .error .Overflow) := by
  induction n with
  | zero =>
    refine ⟨fun _ => rfl, fun h => ?_⟩
    exact absurd h (by decide)
  | succ k ih =>
    have hmono : 10 ^ k ≤ 10 ^ (k + 1) :=
      Nat.pow_le_pow_right (by decide) (Nat.le_succ k)
    refine ⟨fun h => ?_, fun h => ?_⟩
    · have hk : 10 ^ k < U128MOD := lt_of_le_of_lt hmono h
      simp only [u128CheckedPow10, ih.1 hk, u128Mul, except_ok_bind, pow_succ] at h ⊢
      simp [h]
    · by_cases hk : 10 ^ k < U128MOD
      · simp only [u128CheckedPow10, ih.1 hk, u128Mul, except_ok_bind, pow_succ] at h ⊢
        simp [Nat.not_lt.mpr h]
      · simp only [u128CheckedPow10, ih.2 (Nat.not_lt.mp hk), except_error_bind]

/-- C10: the scaling factor `10^decimals` of `scale_up`,
`move_point_right` and `move_point_left` is computed by checked 128-bit
exponentiation: it succeeds (with the exact power) for every
`decimals ≤ 38` and overflows for every `decimals ≥ 39`, in the latter case
failing all three operations with `Overflow` before any value-dependent
arithmetic, for every value `v`. -/
theorem pow10_factor_bound :
    (∀ d, d ≤ 38 → u128CheckedPow10 d = .ok (10 ^ d)) ∧
    (∀ d, 39 ≤ d → u128CheckedPow10 d = .error .Overflow) ∧
    (∀ v d, 39 ≤ d →
      BigDecimal.scale_up v d = .error .Overflow ∧
      BigDecimal.move_point_right v d = .error .Overflow ∧
      BigDecimal.move_point_left v d = .error .Overflow) := by
  have hsmall : ∀ d, d ≤ 38 → u128CheckedPow10 d = .ok (10 ^ d) := by
    intro d hd
    refine (u128CheckedPow10_spec d).1 (lt_of_le_of_lt ?_ (by decide : (10:Nat) ^ 38 < U128MOD))
    exact Nat.pow_le_pow_right (by decide) hd
  have hbig : ∀ d, 39 ≤ d → u128CheckedPow10 d = .error .Overflow := by
    intro d hd
    refine (u128CheckedPow10_spec d).2 (le_trans (by decide : U128MOD ≤ (10:Nat) ^ 39) ?_)
    exact Nat.pow_le_pow_right (by decide) hd
  refine ⟨hsmall, hbig, fun v d hd => ?_⟩
  refine ⟨?_, ?_, ?_⟩ <;>
    simp [BigDecimal.scale_up, BigDecimal.move_point_right,
      BigDecimal.move_point_left, hbig d hd]

/-- Witness for C10 at `decimals = 38` and `decimals = 39`. -/
theorem pow10_factor_bound_witness :
    u128CheckedPow10 38 = .ok (10 ^ 38) ∧
    u128CheckedPow10 39 = .error .Overflow ∧
    BigDecimal.move_point_right 7 39 = .error .Overflow :=
  ⟨pow10_factor_bound.1 38 (by decide),
   pow10_factor_bound.2.1 39 (by decide),
   (pow10_factor_bound.2.2 7 39 (by decide)).2.1⟩

/-- C7: converting an in-range integer `a` (one whose atomics `a * 10^18`
fit in 256 bits) to a decimal at `decimals = 0` and projecting back with
`scale_up(0)` recovers `a` exactly. -/
theorem fromInt_scale_up_roundtrip (a : Nat) (h : a * DF < U256MOD) :
    BigDecimal.fromInt a 0 >>= (fun v => BigDecimal.scale_up v 0) = .ok a := by
  have hDF : (0:Nat) < DF := by decide
  have h1 : BigDecimal.fromInt a 0 = .ok (a * DF) := by
    simp [BigDecimal.fromInt, u128CheckedPow10, Decimal256.from_ratio, h]
  have hmul : a * DF * DF / DF = a * DF := Nat.mul_div_cancel _ hDF
  have h2 : Decimal256.from_ratio 1 1 = .ok DF := by
    simp only [Decimal256.from_ratio, Nat.one_mul, Nat.div_one, if_neg one_ne_zero,
      if_pos (by decide : DF < U256MOD)]
  have h3 : Decimal256.mul (a * DF) DF = .ok (a * DF) := by
    simp [Decimal256.mul, hmul, h]
  simp [h1, BigDecimal.scale_up, u128CheckedPow10, h2, h3,
    Decimal256.to_uint_floor, Nat.mul_div_cancel _ hDF]

/-- Witness for C7 at `a = 12345`. -/
theorem fromInt_scale_up_roundtrip_witness :
    BigDecimal.fromInt 12345 0 >>= (fun v => BigDecimal.scale_up v 0) = .ok 12345 :=
  fromInt_scale_up_roundtrip 12345 (by decide)

/-- C8: whenever `move_point_right n` succeeds on `v` (no overflow in the
intermediate step), applying `move_point_left n` to the result recovers `v`
exactly. -/
theorem move_point_roundtrip (v n w : Nat)
    (h : BigDecimal.move_point_right v n = .ok w) :
    BigDecimal.move_point_left w n = .ok v := by
  by_cases hp : 10 ^ n < U128MOD
  · have hpow := (u128CheckedPow10_spec n).1 hp
    have hDF : (0:Nat) < DF := by decide
    have hfpos : 0 < 10 ^ n := Nat.pos_pow_of_pos n (by decide)
    by_cases hg : 10 ^ n * DF < U256MOD
    · have hratio : Decimal256.from_ratio (10 ^ n) 1 = .ok (10 ^ n * DF) := by
        simp [Decimal256.from_ratio, hg]
      simp only [BigDecimal.move_point_right, hpow, except_ok_bind, hratio] at h
      have hexact : v * (10 ^ n * DF) / DF = v * 10 ^ n := by
        rw [← Nat.mul_assoc]
        exact Nat.mul_div_cancel _ hDF
      by_cases hm : v * (10 ^ n * DF) / DF < U256MOD
      · simp only [Decimal256.mul, if_pos hm] at h
        have hw : v * 10 ^ n = w := by
          rw [← hexact]
          exact Except.ok.inj h
        have hFpos : 0 < 10 ^ n * DF := Nat.mul_pos hfpos hDF
        have hdiv : w * DF / (10 ^ n * DF) = v := by
          rw [← hw, Nat.mul_assoc]
          exact Nat.mul_div_cancel _ hFpos
        have hvlt : v < U256MOD := by
          rw [hexact] at hm
          calc v ≤ v * 10 ^ n := Nat.le_mul_of_pos_right v hfpos
          _ < U256MOD := hm
        have hfinal : Decimal256.div w (10 ^ n * DF) = .ok v := by
          simp only [Decimal256.div, Decimal256.from_ratio, hdiv,
            if_neg hFpos.ne', if_pos hvlt]
        simp only [BigDecimal.move_point_left, hpow, except_ok_bind, hratio, hfinal]
      · simp [Decimal256.mul, hm] at h
    · simp [BigDecimal.move_point_right, hpow, Decimal256.from_ratio, hg] at h
  · have hpow := (u128CheckedPow10_spec n).2 (Nat.not_lt.mp hp)
    simp [BigDecimal.move_point_right, hpow] at h

/-- Witness for C8: moving `1.5` (atomics `15 * 10^17`) two places right and
back two places left is the identity. -/
theorem move_point_roundtrip_witness :
    BigDecimal.move_point_right 1500000000000000000 2 = .ok 150000000000000000000 ∧
    BigDecimal.move_point_left 150000000000000000000 2 = .ok 1500000000000000000 :=
  ⟨by rfl,
   move_point_roundtrip 1500000000000000000 2 150000000000000000000 (by rfl)⟩

/-! ## Decimal strings: parsing (`FromStr for BigDecimal`) and formatting
(`Display for Decimal256`) -/

/-- ASCII digit test, `c.is_ascii_digit()`. -/
def isDigitChar (c : Char) : Bool := 48 ≤ c.toNat && c.toNat ≤ 57

/-- Numeric value of an ASCII digit character. -/
def digitVal (c : Char) : Nat := c.toNat - 48

/-- Base-10 value of a most-significant-first digit-character string. -/
def digitsVal (l : List Char) : Nat :=
  l.foldl (fun a c => a * 10 + digitVal c) 0

/-- `Uint256::from_str` / `from_str_radix(s, 10)`: requires a non-empty
all-digit string whose value fits in 256 bits; returns the value. -/
def parseUint256 (l : List Char) : Option Nat :=
  if l.isEmpty then none
  else if l.all isDigitChar then
    if digitsVal l < U256MOD then some (digitsVal l) else none
  else none

/-- Rust `str::split('.')`: the list of `'.'`-separated segments (always at
least one, possibly empty segments). -/
def splitDot : List Char → List (List Char)
  | [] => [[]]
  | c :: rest =>
    match splitDot rest with
    | [] => [[]]
    | p :: ps => if c = '.' then [] :: p :: ps else (c :: p) :: ps

/-- Failure modes of `FromStr for BigDecimal`, one per distinct
`StdError::generic_err` message in the source. `tooManyFractionalDigits` is
the message `Cannot parse more than 18 fractional digits` and
`unexpectedFormat` is `Unexpected number of dots`. -/
inductive DecParseError
  | errorParsingWhole
  | errorParsingFractional
  | valueTooBig
  | tooManyFractionalDigits
  | unexpectedFormat
  deriving DecidableEq

/-- `impl FromStr for BigDecimal`, in source order: split on `'.'`; parse the
whole segment as a `Uint256`; multiply by `10^18` (checked); if a second
segment exists, parse it as a `Uint256`, require its length `≤ 18`, scale by
`10^(18 - len)` and add (checked); finally reject a third segment. Returns
the atomics of the parsed decimal. -/
def BigDecimal.from_str (s : List Char) : Except DecParseError Nat :=
  match splitDot s with
  | [] => .error .errorParsingWhole
  | wholePart :: rest =>
    match parseUint256 wholePart with
    | none => .error .errorParsingWhole
    | some whole =>
      if whole * DF < U256MOD then
        match rest with
        | [] => .ok (whole * DF)
        | fracPart :: rest2 =>
          match parseUint256 fracPart with
          | none => .error .errorParsingFractional
          | some frac =>
            if fracPart.length ≤ 18 then
              if whole * DF + frac * 10 ^ (18 - fracPart.length) < U256MOD then
                if rest2.isEmpty then
                  .ok (whole * DF + frac * 10 ^ (18 - fracPart.length))
                else .error .unexpectedFormat
              else .error .valueTooBig
            else .error .tooManyFractionalDigits
      else .error .valueTooBig

/-- ASCII digit character for a digit value (`*` is an unreachable filler
for non-digits). -/
def digitChar : Nat → Char
  | 0 => '0'
  | 1 => '1'
  | 2 => '2'
  | 3 => '3'
  | 4 => '4'
  | 5 => '5'
  | 6 => '6'
  | 7 => '7'
  | 8 => '8'
  | 9 => '9'
  | _ => '*'

/-- Base-10 rendering of a natural number, as Rust's `format!("{}")`:
most-significant digit first, `"0"` for zero, no leading zeros otherwise. -/
def natToStr (n : Nat) : List Char :=
  if n = 0 then ['0'] else ((Nat.digits 10 n).map digitChar).reverse

/-- Left-pad to 18 characters with `'0'`, as `format!("{:0>18}")`. -/
def padTo18 (l : List Char) : List Char :=
  List.replicate (18 - l.length) '0' ++ l

/-- `str::trim_end_matches('0')`. -/
def trimTrailingZeros (l : List Char) : List Char :=
  (l.reverse.dropWhile fun c => c = '0').reverse

/-- `impl Display for Decimal256` (used by `Display for BigDecimal`): the
whole part `atomics / 10^18`; if the remainder is non-zero, a `'.'` and the
remainder rendered as 18 zero-padded digits with trailing zeros trimmed. -/
def BigDecimal.format (a : Nat) : List Char :=
  let whole := a / DF
  let frac := a % DF
  if frac = 0 then natToStr whole
  else natToStr whole ++ '.' :: trimTrailingZeros (padTo18 (natToStr frac))

/-- Rational value denoted by a decimal string of the canonical grammar
`WHOLE['.'FRACTIONAL]` (0 for other shapes): the reference semantics the
round-trip claim compares parse and format against. -/
def strVal (s : List Char) : ℚ :=
  match splitDot s with
  | [w] => (digitsVal w : ℚ)
  | [w, f] => (digitsVal w : ℚ) + (digitsVal f : ℚ) / 10 ^ f.length
  | _ => 0

/-! ## Fractional-length and dot-count failures (C5, C6) -/

/-- C5 (amended): for every string whose whole segment is a valid in-range
digit string with `whole * 10^18` representable, and whose first fractional
segment is a valid digit string (value below `2^256`) longer than 18 digits,
parsing fails with `tooManyFractionalDigits`. (The unamended claim, over all
strings with a long fractional segment, is refuted by
`too_many_fractional_digits_refuted`: failures of the earlier whole/fractional
validity checks take precedence.) -/
theorem too_many_fractional_digits (s w f : List Char) (rest : List (List Char))
    (whole frac : Nat)
    (hsplit : splitDot s = w :: f :: rest)
    (hw : parseUint256 w = some whole)
    (hwm : whole * DF < U256MOD)
    (hf : parseUint256 f = some frac)
    (hlen : 18 < f.length) :
    BigDecimal.from_str s = .error .tooManyFractionalDigits := by
  simp [BigDecimal.from_str, hsplit, hw, hwm, hf, Nat.not_le.mpr hlen]

/-- Counterexample to C5 as frozen: `"x.1234567890123456789"` has a
19-digit fractional segment, yet parsing fails with `errorParsingWhole`
(the whole segment is checked first), not `tooManyFractionalDigits`. -/
theorem too_many_fractional_digits_refuted :
    splitDot ("x.1234567890123456789").data =
      [['x'], ("1234567890123456789").data] ∧
    ("1234567890123456789").data.length = 19 ∧
    BigDecimal.from_str ("x.1234567890123456789").data =
      .error .errorParsingWhole ∧
    BigDecimal.from_str ("x.1234567890123456789").data ≠
      .error .tooManyFractionalDigits := by
  refine ⟨rfl, rfl, rfl, fun hcontra => ?_⟩
  rw [show BigDecimal.from_str ("x.1234567890123456789").data =
    .error .errorParsingWhole from rfl] at hcontra
  exact absurd (Except.error.inj hcontra) (by decide)

/-- Witness for C5 at the spec's concrete scenario
`"1.2345678901234567891"` (19 fractional digits). -/
theorem too_many_fractional_digits_witness :
    BigDecimal.from_str ("1.2345678901234567891").data =
      .error .tooManyFractionalDigits :=
  too_many_fractional_digits _ ['1'] ("2345678901234567891").data [] 1
    2345678901234567891 (by rfl) (by rfl) (by decide) (by rfl) (by decide)

/-- C6 (amended): for every string splitting on `'.'` into three or more
segments whose whole segment and first fractional segment pass all the
earlier checks (valid digits, in range, at most 18 fractional digits,
combined atomics representable), parsing fails with `unexpectedFormat`.
(The unamended claim, over all strings with more than one `'.'`, is refuted
by `extra_dot_unexpected_refuted`: failures of the earlier checks
take precedence.) -/
theorem extra_dot_unexpected (s w f r : List Char) (rest : List (List Char))
    (whole frac : Nat)
    (hsplit : splitDot s = w :: f :: r :: rest)
    (hw : parseUint256 w = some whole)
    (hwm : whole * DF < U256MOD)
    (hf : parseUint256 f = some frac)
    (hlen : f.length ≤ 18)
    (hsum : whole * DF + frac * 10 ^ (18 - f.length) < U256MOD) :
    BigDecimal.from_str s = .error .unexpectedFormat := by
  simp [BigDecimal.from_str, hsplit, hw, hwm, hf, hlen, hsum]

/-- Counterexample to C6 as frozen: `"1.x.3"` contains two `'.'`
separators, yet parsing fails with `errorParsingFractional` (the first
fractional segment is parsed before the dot-count check), not
`unexpectedFormat`. -/
theorem extra_dot_unexpected_refuted :
    splitDot ("1.x.3").data = [['1'], ['x'], ['3']] ∧
    BigDecimal.from_str ("1.x.3").data = .error .errorParsingFractional ∧
    BigDecimal.from_str ("1.x.3").data ≠ .error .unexpectedFormat := by
  refine ⟨rfl, rfl, fun hcontra => ?_⟩
  rw [show BigDecimal.from_str ("1.x.3").data =
    .error .errorParsingFractional from rfl] at hcontra
  exact absurd (Except.error.inj hcontra) (by decide)

/-- Witness for C6 at the spec's concrete scenario `"1.2.3"`. -/
theorem extra_dot_unexpected_witness :
    BigDecimal.from_str ("1.2.3").data = .error .unexpectedFormat :=
  extra_dot_unexpected _ ['1'] ['2'] ['3'] [] 1 2 (by rfl) (by rfl)
    (by decide) (by rfl) (by decide) (by decide)

/-! ## Round-trip between parse and format (C3): helper lemmas -/

/-- Folding the digit-accumulation step from an arbitrary accumulator. -/
theorem digitsVal_foldl (l : List Char) : ∀ i : Nat,
    l.foldl (fun a c => a * 10 + digitVal c) i = i * 10 ^ l.length + digitsVal l := by
  induction l with
  | nil => intro i; simp [digitsVal]
  | cons c tl ih =>
    intro i
    simp only [List.foldl_cons, List.length_cons, digitsVal]
    rw [ih (i * 10 + digitVal c), ih (0 * 10 + digitVal c)]
    ring

/-- Base-10 value of a concatenation of digit strings. -/
theorem digitsVal_append (a b : List Char) :
    digitsVal (a ++ b) = digitsVal a * 10 ^ b.length + digitsVal b := by
  simp only [digitsVal, List.foldl_append]
  exact digitsVal_foldl b _

/-- A run of `'0'` characters has value zero. -/
theorem digitsVal_replicate_zero (k : Nat) :
    digitsVal (List.replicate k '0') = 0 := by
  induction k with
  | zero => rfl
  | succ m ih =>
    simp only [digitsVal, List.replicate_succ, List.foldl_cons] at ih ⊢
    exact ih

/-- `digitVal` inverts `digitChar` on digit values. -/
theorem digitVal_digitChar (d : Nat) (h : d < 10) :
    digitVal (digitChar d) = d := by
  interval_cases d <;> rfl

/-- `digitChar` of a digit value is an ASCII digit. -/
theorem isDigitChar_digitChar (d : Nat) (h : d < 10) :
    isDigitChar (digitChar d) = true := by
  interval_cases d <;> rfl

/-- `digitChar` of a digit value is not the separator. -/
theorem digitChar_ne_dot (d : Nat) (h : d < 10) : digitChar d ≠ '.' := by
  interval_cases d <;> decide

/-- Rendering a little-endian digit list most-significant-first and reading
it back gives `Nat.ofDigits`. -/
theorem digitsVal_rev_map_digitChar (ds : List Nat) (h : ∀ d ∈ ds, d < 10) :
    digitsVal ((ds.map digitChar).reverse) = Nat.ofDigits 10 ds := by
  induction ds with
  | nil => rfl
  | cons d tl ih =>
    have hd : d < 10 := h d (List.mem_cons_self d tl)
    have htl : ∀ x ∈ tl, x < 10 := fun x hx => h x (List.mem_cons_of_mem d hx)
    simp only [List.map_cons, List.reverse_cons]
    rw [digitsVal_append, ih htl]
    have h1 : digitsVal [digitChar d] = d := by
      simp [digitsVal, digitVal_digitChar d hd]
    rw [h1]
    simp [Nat.ofDigits_cons]
    ring

/-- Reading back the decimal rendering of `n` recovers `n`. -/
theorem digitsVal_natToStr (n : Nat) : digitsVal (natToStr n) = n := by
  by_cases h : n = 0
  · subst h; rfl
  · simp only [natToStr, if_neg h]
    rw [digitsVal_rev_map_digitChar _ (fun d hd => Nat.digits_lt_base (by norm_num) hd)]
    exact Nat.ofDigits_digits 10 n

/-- Every character of a decimal rendering is an ASCII digit (hence not the
separator). -/
theorem mem_natToStr (n : Nat) (c : Char) (h : c ∈ natToStr n) :
    isDigitChar c = true ∧ c ≠ '.' := by
  by_cases h0 : n = 0
  · subst h0
    have h00 : natToStr 0 = ['0'] := rfl
    rw [h00, List.mem_singleton] at h
    subst h
    exact ⟨rfl, by decide⟩
  · simp only [natToStr, if_neg h0, List.mem_reverse, List.mem_map] at h
    obtain ⟨d, hd, rfl⟩ := h
    have hlt : d < 10 := Nat.digits_lt_base (by norm_num) hd
    exact ⟨isDigitChar_digitChar d hlt, digitChar_ne_dot d hlt⟩

/-- The rendering of a value below `10^18` has at most 18 characters. -/
theorem natToStr_length_le (n : Nat) (h : n < DF) : (natToStr n).length ≤ 18 := by
  by_cases h0 : n = 0
  · subst h0
    simp [natToStr]
  · simp only [natToStr, if_neg h0, List.length_reverse, List.length_map]
    by_contra hlen
    push_neg at hlen
    have h1 : 10 ^ (Nat.digits 10 n).length ≤ 10 * n :=
      Nat.base_pow_length_digits_le 10 n (by norm_num) h0
    have h2 : 10 ^ 19 ≤ 10 ^ (Nat.digits 10 n).length :=
      Nat.pow_le_pow_right (by norm_num) hlen
    have h3 : (10:Nat) ^ 19 = 10 * 10 ^ 18 := by ring
    have h4 : n < 10 ^ 18 := h
    omega

/-- `splitDot` never returns the empty list of segments. -/
theorem splitDot_ne_nil (l : List Char) : splitDot l ≠ [] := by
  cases l with
  | nil => simp [splitDot]
  | cons c tl =>
    simp only [splitDot]
    cases splitDot tl with
    | nil => simp
    | cons p ps =>
      by_cases hc : c = '.' <;> simp [hc]

/-- A dot-free string is a single segment. -/
theorem splitDot_no_dot (l : List Char) (h : '.' ∉ l) : splitDot l = [l] := by
  induction l with
  | nil => rfl
  | cons c tl ih =>
    have hc : c ≠ '.' := fun hc => h (hc ▸ List.mem_cons_self c tl)
    have htl : '.' ∉ tl := fun hm => h (List.mem_cons_of_mem c hm)
    simp only [splitDot, ih htl]
    rw [if_neg hc]

/-- Splitting after a dot-free prefix peels off that prefix as the first
segment. -/
theorem splitDot_append (A B : List Char) (h : '.' ∉ A) :
    splitDot (A ++ '.' :: B) = A :: splitDot B := by
  induction A with
  | nil =>
    simp only [List.nil_append, splitDot]
    cases hB : splitDot B with
    | nil => exact absurd hB (splitDot_ne_nil B)
    | cons p ps => simp
  | cons c tl ih =>
    have hc : c ≠ '.' := fun hc => h (hc ▸ List.mem_cons_self c tl)
    have htl : '.' ∉ tl := fun hm => h (List.mem_cons_of_mem c hm)
    simp [splitDot, ih htl, hc]

/-- Trimming trailing zeros decomposes a string into the trimmed part
followed by a run of `'0'`. -/
theorem trimTrailingZeros_decomp (l : List Char) :
    ∃ k, l = trimTrailingZeros l ++ List.replicate k '0' := by
  refine ⟨(l.reverse.takeWhile fun c => c = '0').length, ?_⟩
  have h1 : ∀ b ∈ l.reverse.takeWhile (fun c => c = '0'), b = '0' := by
    intro b hb
    have := List.mem_takeWhile_imp hb
    exact of_decide_eq_true this
  have h3 : (l.reverse.takeWhile fun c => c = '0').reverse
      = List.replicate (l.reverse.takeWhile fun c => c = '0').length '0' := by
    have h2 : ∀ b ∈ (l.reverse.takeWhile fun c => c = '0').reverse, b = '0' := by
      intro b hb
      exact h1 b (List.mem_reverse.mp hb)
    have h4 := List.eq_replicate_length.mpr h2
    rwa [List.length_reverse] at h4
  calc l = l.reverse.reverse := (List.reverse_reverse l).symm
  _ = ((l.reverse.takeWhile fun c => c = '0') ++
        (l.reverse.dropWhile fun c => c = '0')).reverse := by
      rw [List.takeWhile_append_dropWhile]
  _ = trimTrailingZeros l ++ (l.reverse.takeWhile fun c => c = '0').reverse := by
      rw [List.reverse_append]
      rfl
  _ = _ := by rw [h3]

/-- Formatting is exact: the rational value denoted by the formatted string
of an atomics value `a` is exactly `a / 10^18`. -/
theorem strVal_format (a : Nat) : strVal (BigDecimal.format a) = (a : ℚ) / DF := by
  have hDFpos : (0:Nat) < DF := by decide
  have hDFq : (DF : ℚ) ≠ 0 := by
    norm_num [DF]
  have hmod : DF * (a / DF) + a % DF = a := Nat.div_add_mod a DF
  by_cases hfrac : a % DF = 0
  · have hfmt : BigDecimal.format a = natToStr (a / DF) := by
      simp [BigDecimal.format, hfrac]
    have hnodot : '.' ∉ natToStr (a / DF) := fun hm => (mem_natToStr _ _ hm).2 rfl
    rw [hfmt]
    simp only [strVal, splitDot_no_dot _ hnodot, digitsVal_natToStr]
    have ha : a = DF * (a / DF) := by omega
    rw [ha]
    push_cast
    field_simp
  · have hfmt : BigDecimal.format a = natToStr (a / DF) ++
        '.' :: trimTrailingZeros (padTo18 (natToStr (a % DF))) := by
      simp [BigDecimal.format, hfrac]
    have hfraclt : a % DF < DF := Nat.mod_lt a hDFpos
    have hlen18 : (natToStr (a % DF)).length ≤ 18 := natToStr_length_le _ hfraclt
    have hlenP : (padTo18 (natToStr (a % DF))).length = 18 := by
      simp only [padTo18, List.length_append, List.length_replicate]
      omega
    have hvalP : digitsVal (padTo18 (natToStr (a % DF))) = a % DF := by
      simp only [padTo18]
      rw [digitsVal_append, digitsVal_replicate_zero, digitsVal_natToStr]
      ring
    obtain ⟨k, hk⟩ := trimTrailingZeros_decomp (padTo18 (natToStr (a % DF)))
    have hvalF : digitsVal (trimTrailingZeros (padTo18 (natToStr (a % DF)))) *
        10 ^ k = a % DF := by
      have h7 := hvalP
      rw [hk, digitsVal_append, digitsVal_replicate_zero,
        List.length_replicate] at h7
      simpa using h7
    have hlenF : (trimTrailingZeros (padTo18 (natToStr (a % DF)))).length + k = 18 := by
      have hl := congrArg List.length hk
      simp only [List.length_append, List.length_replicate] at hl
      omega
    have hdotW : '.' ∉ natToStr (a / DF) := fun hm => (mem_natToStr _ _ hm).2 rfl
    have hdotF : '.' ∉ trimTrailingZeros (padTo18 (natToStr (a % DF))) := by
      intro hm
      have hmP : '.' ∈ padTo18 (natToStr (a % DF)) := by
        rw [hk]
        exact List.mem_append_left _ hm
      simp only [padTo18] at hmP
      rcases List.mem_append.mp hmP with hcase | hcase
      · exact absurd (List.eq_of_mem_replicate hcase) (by decide)
      · exact (mem_natToStr _ _ hcase).2 rfl
    rw [hfmt]
    simp only [strVal, splitDot_append _ _ hdotW,
      splitDot_no_dot _ hdotF, digitsVal_natToStr]
    have ha : (a : ℚ) = (DF : ℚ) * (a / DF : Nat) +
        (digitsVal (trimTrailingZeros (padTo18 (natToStr (a % DF)))) : ℚ) * 10 ^ k := by
      have h5 : ((a % DF : ℕ) : ℚ) =
          (digitsVal (trimTrailingZeros (padTo18 (natToStr (a % DF)))) : ℚ) * 10 ^ k := by
        exact_mod_cast congrArg (Nat.cast (R := ℚ)) hvalF.symm
      rw [← h5]
      exact_mod_cast congrArg (Nat.cast (R := ℚ)) hmod.symm
    rw [ha]
    have hDFsplit : (DF : ℚ) =
        10 ^ (trimTrailingZeros (padTo18 (natToStr (a % DF)))).length * 10 ^ k := by
      have h6 : (DF : ℚ) = 10 ^ 18 := by norm_num [DF]
      rw [h6, ← pow_add]
      congr 1
      omega
    rw [hDFsplit]
    have h10F : (10:ℚ) ^ (trimTrailingZeros (padTo18 (natToStr (a % DF)))).length ≠ 0 := by
      positivity
    have h10k : (10:ℚ) ^ k ≠ 0 := by positivity
    field_simp
    ring

/-- A successful `Uint256` parse returns the base-10 value of the string. -/
theorem parseUint256_val (l : List Char) (v : Nat)
    (h : parseUint256 l = some v) : v = digitsVal l := by
  unfold parseUint256 at h
  split at h
  · exact absurd h (by simp)
  · split at h
    · split at h
      · exact (Option.some.inj h).symm
      · exact absurd h (by simp)
    · exact absurd h (by simp)

/-- Parsing is exact: a successfully parsed string denotes exactly
`atomics / 10^18` for the returned atomics. -/
theorem from_str_strVal (s : List Char) (a : Nat)
    (h : BigDecimal.from_str s = .ok a) : strVal s = (a : ℚ) / DF := by
  have hDFq : (DF : ℚ) ≠ 0 := by norm_num [DF]
  unfold BigDecimal.from_str at h
  cases hsp : splitDot s with
  | nil => rw [hsp] at h; exact absurd h (by simp)
  | cons wholePart rest =>
    rw [hsp] at h
    simp only [] at h
    cases hw : parseUint256 wholePart with
    | none => rw [hw] at h; exact absurd h (by simp)
    | some whole =>
      rw [hw] at h
      simp only [] at h
      by_cases hwm : whole * DF < U256MOD
      case neg => rw [if_neg hwm] at h; exact absurd h (by simp)
      rw [if_pos hwm] at h
      cases rest with
      | nil =>
        simp only [] at h
        have ha : a = whole * DF := (Except.ok.inj h).symm
        simp only [strVal, hsp, parseUint256_val _ _ hw]
        rw [ha, parseUint256_val _ _ hw]
        push_cast
        field_simp
      | cons fracPart rest2 =>
        simp only [] at h
        cases hf : parseUint256 fracPart with
        | none => rw [hf] at h; exact absurd h (by simp)
        | some frac =>
          rw [hf] at h
          simp only [] at h
          by_cases hlen : fracPart.length ≤ 18
          case neg => rw [if_neg hlen] at h; exact absurd h (by simp)
          rw [if_pos hlen] at h
          by_cases hsum : whole * DF + frac * 10 ^ (18 - fracPart.length) < U256MOD
          case neg => rw [if_neg hsum] at h; exact absurd h (by simp)
          rw [if_pos hsum] at h
          by_cases hempty : rest2.isEmpty
          case neg =>
            rw [Bool.not_eq_true] at hempty
            rw [if_neg (by simp [hempty])] at h
            exact absurd h (by simp)
          rw [if_pos hempty] at h
          have hrest2 : rest2 = [] := List.isEmpty_iff.mp hempty
          subst hrest2
          have ha : a = whole * DF + frac * 10 ^ (18 - fracPart.length) :=
            (Except.ok.inj h).symm
          simp only [strVal, hsp]
          rw [ha, parseUint256_val _ _ hw, parseUint256_val _ _ hf]
          have hsplitpow : (10:ℚ) ^ (18 - fracPart.length) *
              10 ^ fracPart.length = 10 ^ 18 := by
            rw [← pow_add]
            congr 1
            omega
          have h10l : (10:ℚ) ^ fracPart.length ≠ 0 := by positivity
          have hDF18 : (DF : ℚ) = 10 ^ 18 := by norm_num [DF]
          push_cast
          rw [hDF18]
          field_simp
          rw [← hsplitpow]
          ring

/-- C3: for every decimal string accepted by parse, formatting the parsed
value yields a string denoting exactly the same rational value — the
round-trip is exact, with no rounding error. -/
theorem parse_format_exact_roundtrip (s : List Char) (a : Nat)
    (h : BigDecimal.from_str s = .ok a) :
    strVal (BigDecimal.format a) = strVal s := by
  rw [strVal_format, from_str_strVal s a h]

/-- Witness for C3 at `"007.250"`: parse yields atomics `7.25 * 10^18` and
the format of that value denotes the same rational `29/4`. -/
theorem parse_format_exact_roundtrip_witness :
    BigDecimal.from_str ("007.250").data = .ok 7250000000000000000 ∧
    strVal (BigDecimal.format 7250000000000000000) = strVal ("007.250").data :=
  ⟨by rfl,
   parse_format_exact_roundtrip ("007.250").data 7250000000000000000 (by rfl)⟩

end RustCommon
